import Mathlib

/-!
Shallow embedding of the forestrie/canopy repository: two Python scripts,
`scripts/idtimestamp-unixms.py` (function `unixms`) and
`scripts/idtimestamp_to_utc.py` (function `idtimestamp_to_datetime`), each
decoding a fixed-width hexadecimal "idtimestamp" string into a Unix
millisecond value.  Strings are modelled as `List Char`; Python byte strings
as `List Nat` (each entry a byte value); a Python function that may raise
`ValueError` is modelled as returning `Except DecodeError _`.
-/

/-- Numeric value of one hexadecimal digit character, as accepted by Python's
`bytes.fromhex`; `none` when the character is not a hex digit. -/
def hexVal (c : Char) : Option Nat :=
  if '0' ≤ c ∧ c ≤ '9' then some (c.toNat - '0'.toNat)
  else if 'a' ≤ c ∧ c ≤ 'f' then some (c.toNat - 'a'.toNat + 10)
  else if 'A' ≤ c ∧ c ≤ 'F' then some (c.toNat - 'A'.toNat + 10)
  else none

/-- Model of `bytes.fromhex`: ASCII spaces before a digit pair are skipped
(CPython skips the space character in every Python 3 version; 3.11 extends
the skipping to other ASCII whitespace, which no input here contains); then
two hex digits form one byte.  A space between the two digits of a pair, a
non-hex character, or a dangling single digit raises `ValueError` (`none`).
Because of the space skipping, a 16-character payload can decode to fewer
than 8 bytes. -/
def bytesFromHex : List Char → Option (List Nat)
  | [] => some []
  | a :: rest =>
    if a = ' ' then bytesFromHex rest
    else
      match rest with
      | [] => none
      | b :: rest2 =>
        match hexVal a, hexVal b, bytesFromHex rest2 with
        | some hi, some lo, some tl => some ((hi * 16 + lo) :: tl)
        | _, _, _ => none

/-- Numeric value of one decimal digit character; `none` otherwise. -/
def decVal (c : Char) : Option Nat :=
  if '0' ≤ c ∧ c ≤ '9' then some (c.toNat - '0'.toNat) else none

/-- Model of Python `int(s)` (base 10) applied to the two-character epoch
slice `id_val[:2]`: both characters must be decimal digits.  Python's `int`
additionally tolerates surrounding whitespace and a sign; the properties
below constrain this slice only on decimal-digit or hex-digit characters,
and both embedded scripts share this one model, so their relative behaviour
is unaffected by the restriction. -/
def pyInt2 : List Char → Option Nat
  | [a, b] =>
    match decVal a, decVal b with
    | some x, some y => some (10 * x + y)
    | _, _ => none
  | _ => none

/-- The big-endian unsigned value of a byte string, the value of
`int(bs.hex(), 16)` for nonempty `bs`. -/
def beVal (bs : List Nat) : Nat := bs.foldl (fun acc b => acc * 256 + b) 0

/-- Model of `int(raw_bytes[:-3].hex(), 16)`: the hex rendering of a
nonempty byte string parses to its big-endian value; on an empty byte
string `b"".hex()` is `""` and `int("", 16)` raises `ValueError`. -/
def pyIntHex (bs : List Nat) : Option Nat :=
  if bs = [] then none else some (beVal bs)

/-- Lines 18-19 of both scripts: `if id_val.startswith("0x"): id_val = id_val[2:]`.
Only the lowercase marker is stripped. -/
def strip0x (l : List Char) : List Char :=
  if l.take 2 = ['0', 'x'] then l.drop 2 else l

/-- The distinct `ValueError` sites of the decoders.  `invalidLength` and
`invalidPayloadLength` carry the length that the Python message interpolates;
`invalidEpochLiteral` is the `ValueError` raised by `int(id_val[:2])` on a
non-decimal slice; `emptyIntLiteral` is the `ValueError` raised by
`int("", 16)` when the byte payload had exactly 3 bytes. -/
inductive DecodeError where
  | invalidLength (got : Nat)
  | invalidEpochLiteral (slice : List Char)
  | invalidPayloadLength (got : Nat)
  | malformedHex
  | tooShort
  | emptyIntLiteral
deriving DecidableEq, Repr

/-- Embedding of `unixms` from `scripts/idtimestamp-unixms.py` (lines 7-46).
The source fetches `raw_bytes` and checks its length twice (a verbatim
duplicated block, lines 33-43); the embedding keeps both occurrences. -/
def unixms (id0 : List Char) (epoch0 : Nat) : Except DecodeError Nat :=
  let idv := strip0x id0
  if ¬ (idv.length = 16 ∨ idv.length = 18) then
    .error (.invalidLength idv.length)
  else
    match (if idv.length = 18 then
             (pyInt2 (idv.take 2)).map (fun e => (e, idv.drop 2))
           else some (epoch0, idv)) with
    | none => .error (.invalidEpochLiteral (idv.take 2))
    | some (epoch, idv2) =>
      if ¬ (idv2.length = 16) then
        .error (.invalidPayloadLength idv2.length)
      else
        match bytesFromHex idv2 with
        | none => .error .malformedHex
        | some raw_bytes =>
          if raw_bytes.length < 3 then .error .tooShort
          else
            match bytesFromHex idv2 with
            | none => .error .malformedHex
            | some raw_bytes2 =>
              if raw_bytes2.length < 3 then .error .tooShort
              else
                match pyIntHex (raw_bytes2.take (raw_bytes2.length - 3)) with
                | none => .error .emptyIntLiteral
                | some t => .ok (t + epoch * (2 ^ 40 - 1))

/-- Embedding of the decode portion (lines 18-38) of
`idtimestamp_to_datetime` from `scripts/idtimestamp_to_utc.py`: identical to
`unixms` except that the epoch defaults to the literal `1` (line 24) and the
`bytes.fromhex` block appears once. -/
def decode_ms (id0 : List Char) : Except DecodeError Nat :=
  let idv := strip0x id0
  if ¬ (idv.length = 16 ∨ idv.length = 18) then
    .error (.invalidLength idv.length)
  else
    match (if idv.length = 18 then
             (pyInt2 (idv.take 2)).map (fun e => (e, idv.drop 2))
           else some (1, idv)) with
    | none => .error (.invalidEpochLiteral (idv.take 2))
    | some (epoch, idv2) =>
      if ¬ (idv2.length = 16) then
        .error (.invalidPayloadLength idv2.length)
      else
        match bytesFromHex idv2 with
        | none => .error .malformedHex
        | some raw_bytes =>
          if raw_bytes.length < 3 then .error .tooShort
          else
            match pyIntHex (raw_bytes.take (raw_bytes.length - 3)) with
            | none => .error .emptyIntLiteral
            | some t => .ok (t + epoch * (2 ^ 40 - 1))

/-- The tuple returned on line 40 of `scripts/idtimestamp_to_utc.py`:
`(datetime.datetime.utcfromtimestamp(seconds), unixms, seconds)`.  The
calendar rendering of the first component is host-library behaviour outside
the embedding; the integer and the seconds value are kept.  `seconds` is the
exact rational `unixms / 1000`; Python stores the nearest binary double of
that value (line 39), which does not affect the integer field. -/
structure UtcResult where
  unixms : Nat
  seconds : ℚ
deriving DecidableEq, Repr

/-- Embedding of `idtimestamp_to_datetime` (lines 7-40 of
`scripts/idtimestamp_to_utc.py`): decode, then build the result tuple. -/
def idtimestamp_to_datetime (id0 : List Char) : Except DecodeError UtcResult :=
  (decode_ms id0).map (fun ms => { unixms := ms, seconds := (ms : ℚ) / 1000 })

/-- The epoch selector a given input carries: `1` for a 16-character stripped
input, the decimal-parsed leading two characters for an 18-character one. -/
def epochSelOf (id0 : List Char) : Option Nat :=
  if (strip0x id0).length = 18 then pyInt2 ((strip0x id0).take 2) else some 1

/-- The 16-character payload of an input: the stripped string with the
two epoch-selector characters removed when present. -/
def payloadOf (id0 : List Char) : List Char :=
  if (strip0x id0).length = 18 then (strip0x id0).drop 2 else strip0x id0

/-- Whether a decode outcome is the defensive `TooShort` error. -/
def isTooShort : Except DecodeError Nat → Bool
  | .error .tooShort => true
  | _ => false

/-- Whether a character is a hexadecimal digit in the sense of `hexVal`. -/
def isHexDig (c : Char) : Bool := (hexVal c).isSome

/-! ## Helper lemmas -/

theorem bytesFromHex_hex_length : ∀ (l : List Char) (bs : List Nat),
    (∀ c ∈ l, isHexDig c = true) → bytesFromHex l = some bs →
    bs.length = l.length / 2
  | [], bs, _, h => by
      simp [bytesFromHex] at h; simp [← h]
  | [a], bs, hhex, h => by
      have ha : isHexDig a = true := hhex a (by simp)
      have hsp : a ≠ ' ' := by
        intro hc; rw [hc] at ha; exact absurd ha (by decide)
      simp only [bytesFromHex] at h
      rw [if_neg hsp] at h
      exact Option.noConfusion h
  | a :: b :: rest, bs, hhex, h => by
      have ha : isHexDig a = true := hhex a (by simp)
      have hsp : a ≠ ' ' := by
        intro hc; rw [hc] at ha; exact absurd ha (by decide)
      simp only [bytesFromHex] at h
      rw [if_neg hsp] at h
      cases hha : hexVal a with
      | none => rw [hha] at h; simp at h
      | some hi =>
        cases hhb : hexVal b with
        | none => rw [hha, hhb] at h; simp at h
        | some lo =>
          cases hr : bytesFromHex rest with
          | none => rw [hha, hhb, hr] at h; simp at h
          | some tl =>
            rw [hha, hhb, hr] at h
            simp only [Option.some.injEq] at h
            have ih := bytesFromHex_hex_length rest tl
              (fun c hc => hhex c (by simp [hc])) hr
            rw [← h]
            simp [List.length_cons, ih]
            omega

theorem bytesFromHex_total : ∀ (l : List Char),
    (∀ c ∈ l, isHexDig c = true) → l.length % 2 = 0 →
    ∃ bs, bytesFromHex l = some bs
  | [], _, _ => ⟨[], rfl⟩
  | [a], _, hlen => by simp at hlen
  | a :: b :: rest, hhex, hlen => by
      have ha : isHexDig a = true := hhex a (by simp)
      have hb : isHexDig b = true := hhex b (by simp)
      have hsp : a ≠ ' ' := by
        intro hc; rw [hc] at ha; exact absurd ha (by decide)
      rw [isHexDig, Option.isSome_iff_exists] at ha hb
      obtain ⟨hi, ha⟩ := ha
      obtain ⟨lo, hb⟩ := hb
      have hlen' : rest.length % 2 = 0 := by simp at hlen; omega
      obtain ⟨tl, htl⟩ := bytesFromHex_total rest
        (fun c hc => hhex c (by simp [hc])) hlen'
      exact ⟨(hi * 16 + lo) :: tl, by simp [bytesFromHex, hsp, ha, hb, htl]⟩

theorem strip0x_eq_self (l : List Char) (h : ∀ c ∈ l, isHexDig c = true) :
    strip0x l = l := by
  rw [strip0x]
  split
  · next htake =>
    exfalso
    have hx : 'x' ∈ l := by
      have : 'x' ∈ l.take 2 := by rw [htake]; simp
      exact List.mem_of_mem_take this
    have := h 'x' hx
    simp [isHexDig, hexVal] at this
  · rfl

theorem mem_of_mem_strip0x (l : List Char) (c : Char) (h : c ∈ strip0x l) :
    c ∈ l := by
  rw [strip0x] at h
  split at h
  · exact List.mem_of_mem_drop h
  · exact h

theorem unixms_strip_congr (a b : List Char) (e : Nat)
    (h : strip0x a = strip0x b) : unixms a e = unixms b e := by
  simp only [unixms, h]

theorem unixms_one_eq (id0 : List Char) : unixms id0 1 = decode_ms id0 := by
  simp only [unixms, decode_ms]
  split
  · rfl
  · split
    · rfl
    · split
      · rfl
      · split
        · rfl
        · split
          · rfl
          · split <;> simp_all

/-- The epoch-selector step always hands the payload variable either the
dropped stripped input (18-character case) or the stripped input itself. -/
theorem sel_eq_cases (id0 : List Char) (epoch0 epoch : Nat)
    (idv2 : List Char)
    (heq : (if (strip0x id0).length = 18 then
              (pyInt2 ((strip0x id0).take 2)).map
                (fun e => (e, (strip0x id0).drop 2))
            else some (epoch0, strip0x id0)) = some (epoch, idv2)) :
    idv2 = (strip0x id0).drop 2 ∨ idv2 = strip0x id0 := by
  split at heq
  · cases hp : pyInt2 ((strip0x id0).take 2) with
    | none => rw [hp] at heq; exact Option.noConfusion heq
    | some e0 =>
      rw [hp] at heq
      simp only [Option.map_some', Option.some.injEq, Prod.mk.injEq] at heq
      exact Or.inl heq.2.symm
  · simp only [Option.some.injEq, Prod.mk.injEq] at heq
    exact Or.inr heq.2.symm

/-- Any accepted input decodes to the formula `big-endian(all but the last
3 payload bytes) + epoch * (2^40 - 1)`, with the payload string 16
characters long. -/
theorem unixms_ok_value (id0 : List Char) (v : Nat)
    (h : unixms id0 1 = .ok v) :
    ∃ e bs, epochSelOf id0 = some e ∧ bytesFromHex (payloadOf id0) = some bs ∧
      (payloadOf id0).length = 16 ∧
      v = beVal (bs.take (bs.length - 3)) + e * (2 ^ 40 - 1) := by
  simp only [unixms] at h
  split at h
  · exact absurd h (by simp)
  next hlen =>
    split at h
    · exact absurd h (by simp)
    next epoch idv2 heq =>
      split at h
      · exact absurd h (by simp)
      next h16 =>
        split at h
        · exact absurd h (by simp)
        next raw hraw =>
          split at h
          · exact absurd h (by simp)
          next hge3 =>
            split at h
            · simp_all
            next raw2 hraw2 =>
              injection hraw2 with hr2
              subst hr2
              split at h
              · exact absurd h (by simp)
              next hge3b =>
                split at h
                · exact absurd h (by simp)
                next t hpt =>
                  have ht : t = beVal (raw.take (raw.length - 3)) := by
                    rw [pyIntHex] at hpt
                    split at hpt
                    · exact Option.noConfusion hpt
                    · exact (Option.some.inj hpt).symm
                  have hv : v = beVal (raw.take (raw.length - 3))
                      + epoch * (2 ^ 40 - 1) := by
                    have h' := (Except.ok.inj h).symm
                    rw [h', ht]
                  have h16' : idv2.length = 16 := not_not.mp h16
                  by_cases hs18 : (strip0x id0).length = 18
                  · rw [if_pos hs18] at heq
                    cases hp : pyInt2 ((strip0x id0).take 2) with
                    | none => rw [hp] at heq; exact Option.noConfusion heq
                    | some e0 =>
                      rw [hp] at heq
                      simp only [Option.map_some', Option.some.injEq,
                        Prod.mk.injEq] at heq
                      obtain ⟨he, hi⟩ := heq
                      have hpay : payloadOf id0 = idv2 := by
                        rw [payloadOf, if_pos hs18, hi]
                      refine ⟨e0, raw, ?_, ?_, ?_, ?_⟩
                      · rw [epochSelOf, if_pos hs18, hp]
                      · rw [hpay]; exact hraw
                      · rw [hpay]; exact h16'
                      · rw [hv, he]
                  · rw [if_neg hs18] at heq
                    simp only [Option.some.injEq, Prod.mk.injEq] at heq
                    obtain ⟨he, hi⟩ := heq
                    have hpay : payloadOf id0 = idv2 := by
                      rw [payloadOf, if_neg hs18, hi]
                    refine ⟨1, raw, ?_, ?_, ?_, ?_⟩
                    · rw [epochSelOf, if_neg hs18]
                    · rw [hpay]; exact hraw
                    · rw [hpay]; exact h16'
                    · rw [hv, ← he]

theorem pyInt2_digits (a b : Char) (n : Nat) (h : pyInt2 [a, b] = some n) :
    ∃ x y, decVal a = some x ∧ decVal b = some y ∧ n = 10 * x + y := by
  simp only [pyInt2] at h
  cases ha : decVal a with
  | none => rw [ha] at h; simp at h
  | some x =>
    cases hb : decVal b with
    | none => rw [ha, hb] at h; simp at h
    | some y =>
      rw [ha, hb] at h
      exact ⟨x, y, rfl, rfl, (Option.some.inj h).symm⟩

theorem decVal_ne_x (c : Char) (n : Nat) (h : decVal c = some n) : c ≠ 'x' := by
  intro hc
  rw [hc] at h
  have : decVal 'x' = none := by decide
  rw [this] at h
  exact Option.noConfusion h

theorem strip0x_cons2 (a b : Char) (p : List Char) (hb : b ≠ 'x') :
    strip0x (a :: b :: p) = a :: b :: p := by
  rw [strip0x, if_neg]
  intro hc
  simp at hc
  exact hb hc.2

/-- Forward evaluation: when the stripped input has a valid length, the
epoch-selector step yields `(epoch, idv2)`, the payload has 16 characters
and hex-decodes to more than 3 bytes, then `unixms` returns the decode
formula. -/
theorem unixms_ok_of (id0 : List Char) (epoch0 epoch : Nat)
    (idv2 : List Char) (bs : List Nat)
    (hlen : (strip0x id0).length = 16 ∨ (strip0x id0).length = 18)
    (hsel : (if (strip0x id0).length = 18 then
               (pyInt2 ((strip0x id0).take 2)).map
                 (fun e => (e, (strip0x id0).drop 2))
             else some (epoch0, strip0x id0)) = some (epoch, idv2))
    (h16 : idv2.length = 16)
    (hbs : bytesFromHex idv2 = some bs)
    (hbs4 : 3 < bs.length) :
    unixms id0 epoch0 =
      .ok (beVal (bs.take (bs.length - 3)) + epoch * (2 ^ 40 - 1)) := by
  simp only [unixms]
  split
  · next hcond => exact absurd hlen hcond
  · split
    · next heqn =>
      rw [hsel] at heqn
      exact Option.noConfusion heqn
    · next ep iv heq =>
      rw [hsel] at heq
      injection heq with heq2
      obtain ⟨hep, hiv⟩ := Prod.mk.injEq .. ▸ heq2
      subst hep
      subst hiv
      rw [if_neg (not_not.mpr h16), hbs]
      split
      · next heqn => exact Option.noConfusion heqn
      · next raw hraw =>
        injection hraw with hraw2
        subst hraw2
        rw [if_neg (by omega)]
        split
        · next heqn => exact Option.noConfusion heqn
        · next raw2 hraw2 =>
          injection hraw2 with hraw3
          subst hraw3
          rw [if_neg (by omega)]
          have htk : pyIntHex (bs.take (bs.length - 3)) =
              some (beVal (bs.take (bs.length - 3))) := by
            rw [pyIntHex, if_neg]
            intro hnil
            have hl := congrArg List.length hnil
            rw [List.length_take, List.length_nil] at hl
            omega
          rw [htk]

/-- An 18-character stripped input whose leading pair is not a two-digit
decimal fails at the `int(id_val[:2])` call. -/
theorem unixms_sel_fail (id0 : List Char) (epoch0 : Nat)
    (h18 : (strip0x id0).length = 18)
    (hp : pyInt2 ((strip0x id0).take 2) = none) :
    unixms id0 epoch0 =
      .error (.invalidEpochLiteral ((strip0x id0).take 2)) := by
  simp only [unixms]
  rw [if_neg (by omega), if_pos h18, hp]
  rfl

/-! ## Claim theorems -/

/-- Claim C4: for every input whose length after `0x`-removal is neither 16
nor 18 (the empty string included), both decoders fail with the
`InvalidLength` error, and the error carries the observed (stripped)
length. -/
theorem c4_invalid_length_error (id0 : List Char) (e : Nat)
    (h : (strip0x id0).length ≠ 16 ∧ (strip0x id0).length ≠ 18) :
    unixms id0 e = .error (.invalidLength (strip0x id0).length) ∧
    decode_ms id0 = .error (.invalidLength (strip0x id0).length) := by
  have h' : ¬ ((strip0x id0).length = 16 ∨ (strip0x id0).length = 18) := by
    rcases h with ⟨h1, h2⟩
    rintro (h3 | h3) <;> [exact h1 h3; exact h2 h3]
  constructor
  · simp only [unixms]
    rw [if_pos h']
  · simp only [decode_ms]
    rw [if_pos h']

/-- Witness for C4 at the empty string: both decoders report length 0. -/
theorem c4_invalid_length_error_witness :
    unixms [] 1 = .error (.invalidLength 0) ∧
    decode_ms [] = .error (.invalidLength 0) :=
  c4_invalid_length_error [] 1 (by decide)

/-- Claim C5: for every valid 16-character hex string `p`, decoding `p` and
decoding `"0x" ++ p` give the same outcome, in both scripts. -/
theorem c5_prefix_insensitivity (p : List Char) (_hlen : p.length = 16)
    (hhex : ∀ c ∈ p, isHexDig c = true) :
    unixms p 1 = unixms ('0' :: 'x' :: p) 1 ∧
    decode_ms p = decode_ms ('0' :: 'x' :: p) := by
  have hs : strip0x p = strip0x ('0' :: 'x' :: p) := by
    rw [strip0x_eq_self p hhex]
    simp [strip0x]
  exact ⟨unixms_strip_congr _ _ _ hs, by
    rw [← unixms_one_eq, ← unixms_one_eq]
    exact unixms_strip_congr _ _ _ hs⟩

/-- Witness for C5 at the all-zero payload. -/
theorem c5_prefix_insensitivity_witness :
    unixms (List.replicate 16 '0') 1 =
      unixms ('0' :: 'x' :: List.replicate 16 '0') 1 ∧
    decode_ms (List.replicate 16 '0') =
      decode_ms ('0' :: 'x' :: List.replicate 16 '0') :=
  c5_prefix_insensitivity (List.replicate 16 '0') (by decide) (by decide)

/-- Claim C8: decoding the all-zero 16-character payload succeeds in both
scripts and yields `0 + 1 * (2^40 - 1) = 1099511627775`. -/
theorem c8_decode_zero_payload :
    unixms (List.replicate 16 '0') 1 = .ok 1099511627775 ∧
    decode_ms (List.replicate 16 '0') = .ok 1099511627775 :=
  ⟨rfl, rfl⟩

/-- Claim C9: both decoders are deterministic; identical inputs yield
identical outcomes. -/
theorem c9_deterministic (id1 id2 : List Char) (e : Nat) (h : id1 = id2) :
    unixms id1 e = unixms id2 e ∧
    idtimestamp_to_datetime id1 = idtimestamp_to_datetime id2 := by
  subst h; exact ⟨rfl, rfl⟩

/-- Witness for C9 at a concrete input. -/
theorem c9_deterministic_witness :
    unixms (List.replicate 16 '0') 1 = unixms (List.replicate 16 '0') 1 ∧
    idtimestamp_to_datetime (List.replicate 16 '0') =
      idtimestamp_to_datetime (List.replicate 16 '0') :=
  c9_deterministic (List.replicate 16 '0') (List.replicate 16 '0') 1 rfl

/-- Claim C10: on every input, `unixms` with its default epoch argument 1
returns exactly the milliseconds component of `idtimestamp_to_datetime`;
in particular one fails (with the same error) exactly when the other
does. -/
theorem c10_scripts_agree (id0 : List Char) :
    unixms id0 1 = Except.map UtcResult.unixms (idtimestamp_to_datetime id0) := by
  rw [unixms_one_eq, idtimestamp_to_datetime]
  cases decode_ms id0 <;> rfl

/-- Counterexample to claim C7 as stated: the 16-character input of 12
spaces followed by "0000" passes the length validation, `bytes.fromhex`
skips the spaces and yields only 2 bytes, and both decoders raise the
`TooShort` error — the defensive branch is reachable. -/
theorem c7_counterexample_space_payload :
    (strip0x (List.replicate 12 ' ' ++ ['0', '0', '0', '0'])).length = 16 ∧
    unixms (List.replicate 12 ' ' ++ ['0', '0', '0', '0']) 1 =
      .error .tooShort ∧
    decode_ms (List.replicate 12 ' ' ++ ['0', '0', '0', '0']) =
      .error .tooShort ∧
    isTooShort (unixms (List.replicate 12 ' ' ++ ['0', '0', '0', '0']) 1) =
      true :=
  ⟨by decide, rfl, rfl, rfl⟩

/-- Claim C7 as amended: on an input made of hex digits only — so the
16-character payload contains no spaces for `bytes.fromhex` to skip — the
decoded byte string has length 8 ≥ 3, and neither decoder ever returns the
`tooShort` error, for any epoch argument.  A space-padded 16-character
payload can decode to fewer than 3 bytes and does reach the branch. -/
theorem c7_amended_tooShort_unreachable (id0 : List Char) (e : Nat)
    (hhex : ∀ c ∈ id0, isHexDig c = true) :
    isTooShort (unixms id0 e) = false ∧ isTooShort (decode_ms id0) = false := by
  constructor
  · simp only [unixms]
    split
    · rfl
    next hlen =>
      split
      · rfl
      next epoch idv2 heq =>
        split
        · rfl
        next h16 =>
          split
          · rfl
          next raw hraw =>
            have hsub : ∀ c ∈ idv2, isHexDig c = true := by
              intro c hc
              rcases sel_eq_cases id0 e epoch idv2 heq with hi | hi
              · exact hhex c (mem_of_mem_strip0x id0 c
                  (List.mem_of_mem_drop (hi ▸ hc)))
              · exact hhex c (mem_of_mem_strip0x id0 c (hi ▸ hc))
            have h8 : raw.length = 8 := by
              rw [bytesFromHex_hex_length idv2 raw hsub hraw, not_not.mp h16]
            rw [if_neg (by omega)]
            split
            · next h2 => exact absurd h2 (by simp)
            next raw2 hraw2 =>
              injection hraw2 with hr2
              subst hr2
              rw [if_neg (by omega)]
              cases pyIntHex (raw.take (raw.length - 3)) <;> rfl
  · simp only [decode_ms]
    split
    · rfl
    next hlen =>
      split
      · rfl
      next epoch idv2 heq =>
        split
        · rfl
        next h16 =>
          split
          · rfl
          next raw hraw =>
            have hsub : ∀ c ∈ idv2, isHexDig c = true := by
              intro c hc
              rcases sel_eq_cases id0 1 epoch idv2 heq with hi | hi
              · exact hhex c (mem_of_mem_strip0x id0 c
                  (List.mem_of_mem_drop (hi ▸ hc)))
              · exact hhex c (mem_of_mem_strip0x id0 c (hi ▸ hc))
            have h8 : raw.length = 8 := by
              rw [bytesFromHex_hex_length idv2 raw hsub hraw, not_not.mp h16]
            rw [if_neg (by omega)]
            cases pyIntHex (raw.take (raw.length - 3)) <;> rfl

/-- Witness for the amended C7 at the all-zero payload. -/
theorem c7_amended_tooShort_unreachable_witness :
    isTooShort (unixms (List.replicate 16 '0') 1) = false ∧
    isTooShort (decode_ms (List.replicate 16 '0')) = false :=
  c7_amended_tooShort_unreachable (List.replicate 16 '0') 1 (by decide)

/-- Claim C2: for two 18-character inputs sharing the same trailing
16-character payload, with both leading pairs made of decimal digits, the
decode results differ by exactly the base-10 difference of the leading
pairs times `2^40 - 1`: the epoch selector is parsed base 10. -/
theorem c2_epoch_parsed_base10 (c1 c2 d1 d2 : Char) (p : List Char)
    (hp : p.length = 16) (ex ey vx vy : Nat)
    (hex : pyInt2 [c1, c2] = some ex) (hey : pyInt2 [d1, d2] = some ey)
    (hx : unixms (c1 :: c2 :: p) 1 = .ok vx)
    (hy : unixms (d1 :: d2 :: p) 1 = .ok vy) :
    (vx : Int) - (vy : Int) = ((ex : Int) - (ey : Int)) * (2 ^ 40 - 1) := by
  obtain ⟨x1, y1, _, hc2v, _⟩ := pyInt2_digits _ _ _ hex
  obtain ⟨x2, y2, _, hd2v, _⟩ := pyInt2_digits _ _ _ hey
  have hsx : strip0x (c1 :: c2 :: p) = c1 :: c2 :: p :=
    strip0x_cons2 _ _ _ (decVal_ne_x _ _ hc2v)
  have hsy : strip0x (d1 :: d2 :: p) = d1 :: d2 :: p :=
    strip0x_cons2 _ _ _ (decVal_ne_x _ _ hd2v)
  obtain ⟨e1, bs1, hesel1, hbs1, hplen1, hvx⟩ := unixms_ok_value _ _ hx
  obtain ⟨e2, bs2, hesel2, hbs2, hplen2, hvy⟩ := unixms_ok_value _ _ hy
  have h18x : (c1 :: c2 :: p).length = 18 := by simp [hp]
  have h18y : (d1 :: d2 :: p).length = 18 := by simp [hp]
  have he1 : e1 = ex := by
    rw [epochSelOf, hsx, if_pos h18x] at hesel1
    have ht : (c1 :: c2 :: p).take 2 = [c1, c2] := by simp
    rw [ht, hex] at hesel1
    exact (Option.some.inj hesel1).symm
  have he2 : e2 = ey := by
    rw [epochSelOf, hsy, if_pos h18y] at hesel2
    have ht : (d1 :: d2 :: p).take 2 = [d1, d2] := by simp
    rw [ht, hey] at hesel2
    exact (Option.some.inj hesel2).symm
  have hpay1 : payloadOf (c1 :: c2 :: p) = p := by
    rw [payloadOf, hsx, if_pos h18x]
    simp
  have hpay2 : payloadOf (d1 :: d2 :: p) = p := by
    rw [payloadOf, hsy, if_pos h18y]
    simp
  rw [hpay1] at hbs1
  rw [hpay2] at hbs2
  have hbseq : bs1 = bs2 := by
    rw [hbs1] at hbs2
    exact Option.some.inj hbs2
  subst hbseq
  subst he1
  subst he2
  rw [hvx, hvy]
  have hK : ((2 ^ 40 - 1 : Nat) : Int) = 2 ^ 40 - 1 := by norm_num
  push_cast [hK]
  ring

/-- Witness for C2: selectors "05" and "01" over the all-zero payload differ
by 4, and the decoded values differ by `4 * (2^40 - 1)`. -/
theorem c2_epoch_parsed_base10_witness :
    ((5497558138875 : Nat) : Int) - ((1099511627775 : Nat) : Int) =
      (((5 : Nat) : Int) - ((1 : Nat) : Int)) * (2 ^ 40 - 1) :=
  c2_epoch_parsed_base10 '0' '5' '0' '1' (List.replicate 16 '0') (by decide)
    5 1 5497558138875 1099511627775 (by decide) (by decide) rfl rfl

/-- Counterexample to claim C3 as stated: the input `"ab" ++ "0" * 16` is 18
valid hex characters (no prefix to strip), yet both decoders fail, because
`int("ab")` is parsed base 10 and raises `ValueError`. -/
theorem c3_counterexample_hex18_fails :
    ('a' :: 'b' :: List.replicate 16 '0').all isHexDig = true ∧
    (strip0x ('a' :: 'b' :: List.replicate 16 '0')).length = 18 ∧
    unixms ('a' :: 'b' :: List.replicate 16 '0') 1 =
      .error (.invalidEpochLiteral ['a', 'b']) ∧
    decode_ms ('a' :: 'b' :: List.replicate 16 '0') =
      .error (.invalidEpochLiteral ['a', 'b']) :=
  ⟨by decide, by decide, rfl, rfl⟩

/-- Claim C3 as amended: an all-hex input whose stripped length is 16 or 18
decodes successfully if and only if the stripped length is 16 or the
leading two characters are both decimal digits (the epoch selector is
parsed base 10, so a hex-letter pair raises `ValueError`). -/
theorem c3_amended_valid_hex_succeeds (id0 : List Char)
    (hhex : ∀ c ∈ id0, isHexDig c = true)
    (hlen : (strip0x id0).length = 16 ∨ (strip0x id0).length = 18) :
    (∃ v, unixms id0 1 = .ok v ∧ decode_ms id0 = .ok v) ↔
      ((strip0x id0).length = 16 ∨
        (pyInt2 ((strip0x id0).take 2)).isSome = true) := by
  have hs : strip0x id0 = id0 := strip0x_eq_self id0 hhex
  have hsucc16 : (strip0x id0).length = 16 →
      ∃ v, unixms id0 1 = .ok v ∧ decode_ms id0 = .ok v := by
    intro h16
    obtain ⟨bs, hbs⟩ := bytesFromHex_total id0 hhex (by rw [hs] at h16; omega)
    have hbs8 : bs.length = 8 := by
      rw [bytesFromHex_hex_length id0 bs hhex hbs]
      rw [hs] at h16
      omega
    have hbs' : bytesFromHex (strip0x id0) = some bs := by rw [hs]; exact hbs
    have hu := unixms_ok_of id0 1 1 (strip0x id0) bs (Or.inl h16)
      (by rw [if_neg (by omega)]) h16 hbs' (by omega)
    exact ⟨_, hu, by rw [← unixms_one_eq]; exact hu⟩
  have hsucc18 : (strip0x id0).length = 18 →
      (pyInt2 ((strip0x id0).take 2)).isSome = true →
      ∃ v, unixms id0 1 = .ok v ∧ decode_ms id0 = .ok v := by
    intro h18 hparse
    obtain ⟨e0, he0⟩ := Option.isSome_iff_exists.mp hparse
    have hd16 : ((strip0x id0).drop 2).length = 16 := by
      simp [List.length_drop, h18]
    have hdhex : ∀ c ∈ (strip0x id0).drop 2, isHexDig c = true := by
      intro c hc
      rw [hs] at hc
      exact hhex c (List.mem_of_mem_drop hc)
    obtain ⟨bs, hbs⟩ := bytesFromHex_total ((strip0x id0).drop 2) hdhex
      (by omega)
    have hbs8 : bs.length = 8 := by
      rw [bytesFromHex_hex_length _ bs hdhex hbs, hd16]
    have hu := unixms_ok_of id0 1 e0 ((strip0x id0).drop 2) bs (Or.inr h18)
      (by rw [if_pos h18, he0]; rfl) hd16 hbs (by omega)
    exact ⟨_, hu, by rw [← unixms_one_eq]; exact hu⟩
  constructor
  · rintro ⟨v, hu, -⟩
    by_cases h16 : (strip0x id0).length = 16
    · exact Or.inl h16
    · have h18 := hlen.resolve_left h16
      cases hpp : pyInt2 ((strip0x id0).take 2) with
      | none =>
        rw [unixms_sel_fail id0 1 h18 hpp] at hu
        exact Except.noConfusion hu
      | some e0 => exact Or.inr rfl
  · rintro (h16 | hparse)
    · exact hsucc16 h16
    · by_cases h16 : (strip0x id0).length = 16
      · exact hsucc16 h16
      · exact hsucc18 (hlen.resolve_left h16) hparse

/-- Witness for the amended C3: the all-zero 16-character input (both sides
of the equivalence true via length 16) and the 18-character input "ab" +
zeros (both sides false: non-decimal leading pair). -/
theorem c3_amended_valid_hex_succeeds_witness :
    ((∃ v, unixms (List.replicate 16 '0') 1 = .ok v ∧
        decode_ms (List.replicate 16 '0') = .ok v) ↔
      ((strip0x (List.replicate 16 '0')).length = 16 ∨
        (pyInt2 ((strip0x (List.replicate 16 '0')).take 2)).isSome = true)) ∧
    ((∃ v, unixms ('a' :: 'b' :: List.replicate 16 '0') 1 = .ok v ∧
        decode_ms ('a' :: 'b' :: List.replicate 16 '0') = .ok v) ↔
      ((strip0x ('a' :: 'b' :: List.replicate 16 '0')).length = 16 ∨
        (pyInt2 ((strip0x ('a' :: 'b' ::
          List.replicate 16 '0')).take 2)).isSome = true)) :=
  ⟨c3_amended_valid_hex_succeeds (List.replicate 16 '0') (by decide)
      (Or.inl (by decide)),
   c3_amended_valid_hex_succeeds ('a' :: 'b' :: List.replicate 16 '0')
      (by decide) (Or.inr (by decide))⟩

/-- Claim C6: whenever `idtimestamp_to_datetime` succeeds, the milliseconds
component of the returned tuple is exactly the decoded millisecond value of
the input; the formatting step does not alter the decoded integer. -/
theorem c6_format_preserves_ms (id0 : List Char) (r : UtcResult)
    (h : idtimestamp_to_datetime id0 = .ok r) :
    decode_ms id0 = .ok r.unixms := by
  rw [idtimestamp_to_datetime] at h
  cases hd : decode_ms id0 with
  | error e => rw [hd] at h; exact Except.noConfusion h
  | ok v =>
    rw [hd] at h
    simp only [Except.map] at h
    have hr := Except.ok.inj h
    subst hr
    rfl

/-- Witness for C6 at the all-zero 16-character payload. -/
theorem c6_format_preserves_ms_witness :
    decode_ms (List.replicate 16 '0') =
      .ok (UtcResult.unixms
        { unixms := 1099511627775,
          seconds := ((1099511627775 : Nat) : ℚ) / 1000 }) :=
  c6_format_preserves_ms (List.replicate 16 '0')
    { unixms := 1099511627775,
      seconds := ((1099511627775 : Nat) : ℚ) / 1000 } rfl
